import Mathlib

/-!
Shallow embedding of `modules/prenet.py` (Tacotron2 encoder / prenet modules).

The file models the two components of the source file, `Encoder` and `Prenet`,
together with the library primitives they are built from (embedding lookup,
1-D convolution, batch normalization, ReLU, dropout, a bidirectional LSTM and
the pack/pad pair for variable-length batches).

Tensors are modelled as nested lists.  The scalar type is a parameter `α`
together with a record `ScalarOps α` of the arithmetic primitives the
numerical framework supplies (addition, multiplication, division, max, the
nonlinearities, ...).  The Python code never branches on scalar values other
than through these primitives, so every definition below is parametric in
them; concrete evaluations instantiate `α` with `ℤ` or `ℚ`.

Randomness (the dropout masks drawn by the framework on each call) is passed
explicitly as a boolean mask function: `true` means the element is kept (and
rescaled), `false` means it is zeroed.
-/

/-- Arithmetic primitives supplied by the external numerical framework. -/
structure ScalarOps (α : Type) where
  zero : α
  one : α
  add : α → α → α
  sub : α → α → α
  mul : α → α → α
  div : α → α → α
  max : α → α → α
  sigmoid : α → α
  tanh : α → α
  sqrt : α → α
  ofNat : ℕ → α

/-- Dropout mask source for a stack of layers: arguments are
layer index, then up to three positional indices. -/
abbrev Mask4 := ℕ → ℕ → ℕ → ℕ → Bool

/-- Dropout mask source for the prenet: layer index, row, column. -/
abbrev Mask3 := ℕ → ℕ → ℕ → Bool

/-- Dot product of two vectors (missing entries are dropped, as both vectors
always have equal length at every call site). -/
def dotV {α : Type} (ops : ScalarOps α) (a b : List α) : α :=
  (List.zipWith ops.mul a b).foldr ops.add ops.zero

/-- Matrix-vector product: one dot product per matrix row. -/
def matVec {α : Type} (ops : ScalarOps α) (m : List (List α)) (v : List α) : List α :=
  m.map (fun row => dotV ops row v)

/-- Elementwise vector addition. -/
def vAdd {α : Type} (ops : ScalarOps α) (a b : List α) : List α :=
  List.zipWith ops.add a b

/-- Elementwise matrix addition. -/
def mAdd {α : Type} (ops : ScalarOps α) (a b : List (List α)) : List (List α) :=
  List.zipWith (vAdd ops) a b

/-- Elementwise addition of rank-3 tensors: this is `xs += ...` on a
`(B, C, T)` tensor. -/
def tAdd {α : Type} (ops : ScalarOps α) (a b : List (List (List α))) : List (List (List α)) :=
  List.zipWith (mAdd ops) a b

/-- Number of columns of a matrix, read off its first row
(all rows have this length at every call site). -/
def numCols {α : Type} (m : List (List α)) : ℕ :=
  (m.headD []).length

/-- `Tensor.transpose(1, 2)` on one batch item: swap the two axes of a
matrix. -/
def transposeM {α : Type} (ops : ScalarOps α) (m : List (List α)) : List (List α) :=
  (List.range (numCols m)).map (fun j => m.map (fun r => r.getD j ops.zero))

/-- `torch.nn.Conv1d` with `stride=1`, `bias=False` and the given symmetric
zero padding, applied to one `(channels, time)` matrix.  `w` has shape
`(out_channels, in_channels, kernel)`; the output time length follows the
convolution size formula `T + 2 * padding - kernel + 1`. -/
def conv1d {α : Type} (ops : ScalarOps α) (w : List (List (List α))) (kernel padding : ℕ)
    (x : List (List α)) : List (List α) :=
  let T := (x.headD []).length
  let outLen := T + 2 * padding + 1 - kernel
  w.map (fun wOut =>
    (List.range outLen).map (fun t =>
      ((List.range wOut.length).map (fun ic =>
        ((List.range kernel).map (fun j =>
          ops.mul ((wOut.getD ic []).getD j ops.zero)
            (if t + j < padding then ops.zero
             else (x.getD ic []).getD (t + j - padding) ops.zero))).foldr ops.add ops.zero)).foldr
        ops.add ops.zero))

/-- All the values of channel `c` across a `(B, C, T)` batch, flattened. -/
def channelSlice {α : Type} (xs : List (List (List α))) (c : ℕ) : List α :=
  (xs.map (fun it => it.getD c [])).flatten

/-- Per-channel batch mean used by `torch.nn.BatchNorm1d` in training mode. -/
def chMean {α : Type} (ops : ScalarOps α) (xs : List (List (List α))) (c : ℕ) : α :=
  let v := channelSlice xs c
  ops.div (v.foldr ops.add ops.zero) (ops.ofNat v.length)

/-- Per-channel (biased) batch variance used by `torch.nn.BatchNorm1d` in
training mode. -/
def chVar {α : Type} (ops : ScalarOps α) (xs : List (List (List α))) (c : ℕ) : α :=
  let v := channelSlice xs c
  let m := chMean ops xs c
  ops.div ((v.map (fun q => ops.mul (ops.sub q m) (ops.sub q m))).foldr ops.add ops.zero)
    (ops.ofNat v.length)

/-- `torch.nn.BatchNorm1d` forward in training mode on a `(B, C, T)` batch:
normalize each channel by the batch statistics, then scale and shift.
(The running-statistics bookkeeping does not affect the returned tensor of
the current call and is not modelled.) -/
def batchNorm1d {α : Type} (ops : ScalarOps α) (gamma beta : List α) (eps : α)
    (xs : List (List (List α))) : List (List (List α)) :=
  xs.map (fun it => it.enum.map (fun p =>
    p.2.map (fun q =>
      ops.add
        (ops.mul (gamma.getD p.1 ops.zero)
          (ops.div (ops.sub q (chMean ops xs p.1)) (ops.sqrt (ops.add (chVar ops xs p.1) eps))))
        (beta.getD p.1 ops.zero))))

/-- `torch.nn.ReLU`: `max(0, x)` elementwise. -/
def reluT {α : Type} (ops : ScalarOps α) (xs : List (List (List α))) : List (List (List α)) :=
  xs.map (fun it => it.map (fun row => row.map (fun q => ops.max ops.zero q)))

/-- `torch.nn.Dropout` on a `(B, C, T)` tensor: active only in training mode;
kept elements are rescaled by `1 / (1 - p)`, dropped elements become zero. -/
def dropout3 {α : Type} (ops : ScalarOps α) (training : Bool) (p : α) (mask : ℕ → ℕ → ℕ → Bool)
    (xs : List (List (List α))) : List (List (List α)) :=
  if training then
    xs.enum.map (fun bi => bi.2.enum.map (fun ci =>
      ci.2.enum.map (fun ti =>
        if mask bi.1 ci.1 ti.1 then ops.div ti.2 (ops.sub ops.one p) else ops.zero)))
  else xs

/-- One convolutional block of the encoder (`Conv1d` + optional
`BatchNorm1d` + `ReLU` + `Dropout`), `prenet.py` lines 66-78. -/
structure ConvBlock (α : Type) where
  weight : List (List (List α))
  kernel : ℕ
  padding : ℕ
  useBN : Bool
  bnWeight : List α
  bnBias : List α
  bnEps : α
  dropP : α
deriving DecidableEq

/-- Construction of one convolutional block as in `Encoder.__init__`:
`Conv1d(ichans, ochans, filts, stride=1, padding=(filts - 1) // 2,
bias=False)`, optionally followed by `BatchNorm1d(ochans)` (affine weights
initialized to one and zero), `ReLU` and `Dropout(p)`.  `w` supplies the
convolution weight entries. -/
def mkConvBlock {α : Type} (ops : ScalarOps α) (ichans ochans filts : ℕ) (useBN : Bool) (p : α)
    (w : ℕ → ℕ → ℕ → α) : ConvBlock α :=
  { weight := (List.range ochans).map (fun o =>
      (List.range ichans).map (fun i => (List.range filts).map (fun j => w o i j)))
    kernel := filts
    padding := (filts - 1) / 2
    useBN := useBN
    bnWeight := List.replicate ochans ops.one
    bnBias := List.replicate ochans ops.zero
    bnEps := ops.div ops.one (ops.ofNat 100000)
    dropP := p }

/-- Apply one convolutional block to a `(B, C, T)` batch: the convolution
acts on each batch item, batch normalization (when present) acts across the
whole batch, then ReLU and dropout. -/
def applyBlock {α : Type} (ops : ScalarOps α) (training : Bool) (mask : ℕ → ℕ → ℕ → Bool)
    (blk : ConvBlock α) (xs : List (List (List α))) : List (List (List α)) :=
  let c := xs.map (fun it => conv1d ops blk.weight blk.kernel blk.padding it)
  let b := if blk.useBN then batchNorm1d ops blk.bnWeight blk.bnBias blk.bnEps c else c
  dropout3 ops training blk.dropP mask (reluT ops b)

/-- The convolution loop of `Encoder.forward` (lines 106-111): iterate over
the blocks in order; with `use_residual` the block output is added to the
running state (`xs += self.convs[l](xs)`), otherwise it replaces it.  The
first argument of the mask source is the block index `l`. -/
def runConvs {α : Type} (ops : ScalarOps α) (training useResidual : Bool) (noise : Mask4) :
    ℕ → List (ConvBlock α) → List (List (List α)) → List (List (List α))
  | _, [], xs => xs
  | l, blk :: rest, xs =>
    let y :=
      if useResidual then tAdd ops xs (applyBlock ops training (noise l) blk xs)
      else applyBlock ops training (noise l) blk xs
    runConvs ops training useResidual noise (l + 1) rest y

/-- Weights of one direction of one LSTM layer, with the `torch.nn.LSTM`
shapes: `w_ih : (4h, in)`, `w_hh : (4h, h)`, `b_ih, b_hh : (4h)`. -/
structure LSTMDir (α : Type) where
  wIh : List (List α)
  wHh : List (List α)
  bIh : List α
  bHh : List α
deriving DecidableEq

/-- One bidirectional LSTM layer: a forward-time and a reverse-time
direction. -/
structure LSTMLayer (α : Type) where
  fwd : LSTMDir α
  bwd : LSTMDir α
deriving DecidableEq

/-- A stacked bidirectional `torch.nn.LSTM`. -/
structure LSTMModel (α : Type) where
  hiddenSize : ℕ
  layers : List (LSTMLayer α)
deriving DecidableEq

/-- Initialization source for the LSTM weights: layer index, direction
(`true` for the reverse direction), then the positional indices. -/
structure LSTMInit (α : Type) where
  wIh : ℕ → Bool → ℕ → ℕ → α
  wHh : ℕ → Bool → ℕ → ℕ → α
  bIh : ℕ → Bool → ℕ → α
  bHh : ℕ → Bool → ℕ → α

/-- Build the weights of one LSTM direction with the `torch.nn.LSTM`
shapes for input width `ins` and hidden size `h`. -/
def mkLSTMDir {α : Type} (ins h l : ℕ) (rev : Bool) (src : LSTMInit α) : LSTMDir α :=
  { wIh := (List.range (4 * h)).map (fun r => (List.range ins).map (fun c => src.wIh l rev r c))
    wHh := (List.range (4 * h)).map (fun r => (List.range h).map (fun c => src.wHh l rev r c))
    bIh := (List.range (4 * h)).map (fun r => src.bIh l rev r)
    bHh := (List.range (4 * h)).map (fun r => src.bHh l rev r) }

/-- `torch.nn.LSTM(ins, h, numLayers, batch_first=True, bidirectional=True)`:
layer 0 reads width `ins`, every later layer reads the concatenated `2 * h`
output of the previous layer. -/
def mkLSTM {α : Type} (ins h numLayers : ℕ) (src : LSTMInit α) : LSTMModel α :=
  { hiddenSize := h
    layers := (List.range numLayers).map (fun l =>
      { fwd := mkLSTMDir (if l = 0 then ins else 2 * h) h l false src
        bwd := mkLSTMDir (if l = 0 then ins else 2 * h) h l true src }) }

/-- One LSTM cell step: gate preactivations `W_ih x + W_hh h + b_ih + b_hh`
split into input/forget/cell/output quarters, then the standard cell and
hidden updates.  Returns `(h, c)`. -/
def lstmCell {α : Type} (ops : ScalarOps α) (h : ℕ) (d : LSTMDir α) (x hPrev cPrev : List α) :
    List α × List α :=
  let gates := vAdd ops (vAdd ops (vAdd ops (matVec ops d.wIh x) (matVec ops d.wHh hPrev)) d.bIh) d.bHh
  let gi := (gates.take h).map ops.sigmoid
  let gf := ((gates.drop h).take h).map ops.sigmoid
  let gg := ((gates.drop (2 * h)).take h).map ops.tanh
  let go := ((gates.drop (3 * h)).take h).map ops.sigmoid
  let c := vAdd ops (List.zipWith ops.mul gf cPrev) (List.zipWith ops.mul gi gg)
  (List.zipWith ops.mul go (c.map ops.tanh), c)

/-- Run one LSTM direction over a sequence of input vectors, collecting the
hidden state emitted at each step. -/
def runDir {α : Type} (ops : ScalarOps α) (h : ℕ) (d : LSTMDir α) :
    List (List α) → List α → List α → List (List α)
  | [], _, _ => []
  | x :: rest, hPrev, cPrev =>
    let hc := lstmCell ops h d x hPrev cPrev
    hc.1 :: runDir ops h d rest hc.1 hc.2

/-- One bidirectional layer on one sequence: run forward in time and
backward in time (both from zero initial states), then concatenate the two
hidden states at each timestep. -/
def runLayer {α : Type} (ops : ScalarOps α) (h : ℕ) (ly : LSTMLayer α) (seq : List (List α)) :
    List (List α) :=
  let f := runDir ops h ly.fwd seq (List.replicate h ops.zero) (List.replicate h ops.zero)
  let b := (runDir ops h ly.bwd seq.reverse (List.replicate h ops.zero)
    (List.replicate h ops.zero)).reverse
  List.zipWith (fun u v => u ++ v) f b

/-- The stacked bidirectional LSTM on one (already truncated) sequence. -/
def runLSTM {α : Type} (ops : ScalarOps α) (m : LSTMModel α) (seq : List (List α)) :
    List (List α) :=
  m.layers.foldl (fun s ly => runLayer ops m.hiddenSize ly s) seq

/-- Is the length vector sorted in non-increasing order?  This is the check
`pack_padded_sequence` enforces (`enforce_sorted=True`). -/
def sortedDesc : List ℕ → Bool
  | [] => true
  | [_] => true
  | a :: b :: rest => (decide (b ≤ a)) && sortedDesc (b :: rest)

/-- `torch.nn.utils.rnn.pack_padded_sequence(xs, ilens, batch_first=True)` on
a `(B, T, C)` batch: rejects unsorted length vectors, a length vector of the
wrong batch size, zero lengths, and lengths exceeding the padded time length;
otherwise each batch item is truncated to its true length.  The packed value
is modelled as the list of truncated sequences plus the length vector. -/
def packPaddedSequence {α : Type} (xs : List (List (List α))) (ilens : List ℕ) :
    Except String (List (List (List α)) × List ℕ) :=
  if sortedDesc ilens = false then
    Except.error "lengths array must be sorted in decreasing order"
  else if ilens.length ≠ xs.length then
    Except.error "lengths array size does not match batch size"
  else if ilens.any (fun l => l = 0) then
    Except.error "length of all samples has to be greater than 0"
  else if ilens.any (fun l => (xs.headD []).length < l) then
    Except.error "lengths larger than the padded time length"
  else
    Except.ok (List.zipWith (fun seq l => seq.take l) xs ilens, ilens)

/-- Pad one sequence back to time length `t` with zero vectors of width `w`. -/
def padToLen {α : Type} (ops : ScalarOps α) (t w : ℕ) (seq : List (List α)) : List (List α) :=
  seq ++ List.replicate (t - seq.length) (List.replicate w ops.zero)

/-- `torch.nn.utils.rnn.pad_packed_sequence(xs, batch_first=True)`: pad every
sequence to the longest true length and return the length vector. -/
def padPackedSequence {α : Type} (ops : ScalarOps α) (w : ℕ) (seqs : List (List (List α)))
    (lens : List ℕ) : List (List (List α)) × List ℕ :=
  let tmax := lens.foldr Nat.max 0
  (seqs.map (padToLen ops tmax w), lens)

/-- The state of a constructed `Encoder` module. -/
structure Encoder (α : Type) where
  idim : ℕ
  useResidual : Bool
  training : Bool
  embedWeight : List (List α)
  convs : Option (List (ConvBlock α))
  blstm : Option (LSTMModel α)
deriving DecidableEq

/-- Initialization sources for the encoder parameters: `embedW` is the
framework's embedding initialization, `convW` the convolution initialization
used when the `Conv1d` modules are created, `convXavier` the values written
over them by the `encoder_init` pass (Xavier-uniform with the ReLU gain),
and `lstm` the LSTM initialization. -/
structure EncoderInit (α : Type) where
  embedW : ℕ → ℕ → α
  convW : ℕ → ℕ → ℕ → ℕ → α
  convXavier : ℕ → ℕ → ℕ → ℕ → α
  lstm : LSTMInit α

/-- `Encoder.__init__` (lines 55-88), before the `self.apply(encoder_init)`
pass: the embedding table (whose `padding_idx` row is set to zero by
`torch.nn.Embedding`), the optional stack of convolutional blocks, and the
optional bidirectional LSTM with hidden size `eunits // 2` reading width
`econv_chans` when convolutions are present and `embed_dim` otherwise. -/
def mkRawEncoder {α : Type} (ops : ScalarOps α)
    (idim embedDim elayers eunits econvLayers econvChans econvFilts : ℕ)
    (useBatchNorm useResidual : Bool) (dropoutRate : α) (paddingIdx : ℕ)
    (src : EncoderInit α) : Encoder α :=
  { idim := idim
    useResidual := useResidual
    training := true
    embedWeight := (List.range idim).map (fun i =>
      if i = paddingIdx then List.replicate embedDim ops.zero
      else (List.range embedDim).map (fun j => src.embedW i j))
    convs :=
      if 0 < econvLayers then
        some ((List.range econvLayers).map (fun l =>
          mkConvBlock ops (if l = 0 then embedDim else econvChans) econvChans econvFilts
            useBatchNorm dropoutRate (src.convW l)))
      else none
    blstm :=
      if 0 < elayers then
        some (mkLSTM (if econvLayers ≠ 0 then econvChans else embedDim) (eunits / 2) elayers
          src.lstm)
      else none }

/-- `self.apply(encoder_init)` (lines 11-14, 91): the recursive pass visits
every submodule and overwrites the weight of each `torch.nn.Conv1d` with
Xavier-uniform values; every other parameter (embedding, batch
normalization, LSTM) is left untouched. -/
def applyEncoderInit {α : Type} (e : Encoder α) (xavier : ℕ → ℕ → ℕ → ℕ → α) : Encoder α :=
  { e with convs := e.convs.map (fun bs => bs.enum.map (fun p =>
      { p.2 with weight := p.2.weight.enum.map (fun ow =>
          ow.2.enum.map (fun iw =>
            iw.2.enum.map (fun jw => xavier p.1 ow.1 iw.1 jw.1))) })) }

/-- Full `Encoder` construction: `__init__` followed by
`self.apply(encoder_init)`. -/
def mkEncoder {α : Type} (ops : ScalarOps α)
    (idim embedDim elayers eunits econvLayers econvChans econvFilts : ℕ)
    (useBatchNorm useResidual : Bool) (dropoutRate : α) (paddingIdx : ℕ)
    (src : EncoderInit α) : Encoder α :=
  applyEncoderInit
    (mkRawEncoder ops idim embedDim elayers eunits econvLayers econvChans econvFilts
      useBatchNorm useResidual dropoutRate paddingIdx src)
    src.convXavier

/-- `self.embed(xs)`: per-id row lookup in the embedding table, on a
`(B, T)` batch of ids. -/
def embedBatch {α : Type} (e : Encoder α) (xs : List (List ℕ)) : List (List (List α)) :=
  xs.map (fun s => s.map (fun id => e.embedWeight.getD id []))

/-- Result of `Encoder.forward`: a plain tensor when no recurrent stage
exists (line 113), otherwise the padded hidden-state tensor together with
the length vector (line 119). -/
inductive EncoderOut (α : Type) where
  | noRnn (xs : List (List (List α)))
  | rnn (xs : List (List (List α))) (hlens : List ℕ)
deriving DecidableEq

/-- Lines 105-111 of `Encoder.forward`: embedding lookup, transpose to
channel-first layout, then the convolution loop when convolutions exist. -/
def encPre {α : Type} (ops : ScalarOps α) (e : Encoder α) (noise : Mask4)
    (xs : List (List ℕ)) : List (List (List α)) :=
  let emb := (embedBatch e xs).map (transposeM ops)
  match e.convs with
  | none => emb
  | some bs => runConvs ops e.training e.useResidual noise 0 bs emb

/-- `Encoder.forward` (lines 93-119): embed and transpose to channel-first
layout, run the convolution loop, then either return the transposed-back
tensor (no recurrent stage) or pack with the true lengths, run the
bidirectional LSTM and pad back.  `noise` supplies the dropout draws of this
invocation. -/
def Encoder.forward {α : Type} (ops : ScalarOps α) (e : Encoder α) (noise : Mask4)
    (xs : List (List ℕ)) (ilens : Option (List ℕ)) : Except String (EncoderOut α) :=
  let cOut := encPre ops e noise xs
  match e.blstm with
  | none => Except.ok (EncoderOut.noRnn (cOut.map (transposeM ops)))
  | some m =>
    match ilens with
    | none => Except.error "forward requires ilens when the blstm is present"
    | some il =>
      match packPaddedSequence (cOut.map (transposeM ops)) il with
      | Except.error msg => Except.error msg
      | Except.ok packed =>
        let outs := packed.1.map (fun seq => runLSTM ops m seq)
        let padded := padPackedSequence ops (2 * m.hiddenSize) outs packed.2
        Except.ok (EncoderOut.rnn padded.1 padded.2)

/-- Result of `Encoder.inference`: `forward(...)[0][0]` is tuple indexing
followed by batch indexing when a recurrent stage exists (a `(T, eunits)`
matrix), but batch indexing followed by time indexing when `forward`
returns a plain tensor (a single state vector). -/
inductive InferenceOut (α : Type) where
  | mat (m : List (List α))
  | vec (v : List α)
deriving DecidableEq

/-- `Encoder.inference` (lines 121-135): form the one-item batch `[x]` with
length vector `[len(x)]`, call `forward` and take `[0][0]` of the result. -/
def Encoder.inference {α : Type} (ops : ScalarOps α) (e : Encoder α) (noise : Mask4)
    (x : List ℕ) : Except String (InferenceOut α) :=
  match Encoder.forward ops e noise [x] (some [x.length]) with
  | Except.error msg => Except.error msg
  | Except.ok (EncoderOut.rnn ys _) => Except.ok (InferenceOut.mat (ys.getD 0 []))
  | Except.ok (EncoderOut.noRnn ys) => Except.ok (InferenceOut.vec ((ys.getD 0 []).getD 0 []))

/-- One prenet layer: `torch.nn.Linear(n_inputs, n_units)` followed by
`ReLU`. -/
structure PrenetLayer (α : Type) where
  weight : List (List α)
  bias : List α
deriving DecidableEq

/-- The state of a constructed `Prenet` module. -/
structure Prenet (α : Type) where
  dropoutRate : α
  training : Bool
  prenet : List (PrenetLayer α)
deriving DecidableEq

/-- `Prenet.__init__` (lines 156-173): a stack of `n_layers` Linear+ReLU
blocks, the first reading width `idim`, the rest reading `n_units`. -/
def mkPrenet {α : Type} (idim nLayers nUnits : ℕ) (dropoutRate : α)
    (w : ℕ → ℕ → ℕ → α) (b : ℕ → ℕ → α) : Prenet α :=
  { dropoutRate := dropoutRate
    training := true
    prenet := (List.range nLayers).map (fun l =>
      { weight := (List.range nUnits).map (fun r =>
          (List.range (if l = 0 then idim else nUnits)).map (fun c => w l r c))
        bias := (List.range nUnits).map (fun r => b l r) }) }

/-- Apply one Linear+ReLU block to every row of a `(rows, features)`
tensor. -/
def linearReLU {α : Type} (ops : ScalarOps α) (ly : PrenetLayer α) (x : List (List α)) :
    List (List α) :=
  x.map (fun row => (vAdd ops (matVec ops ly.weight row) ly.bias).map (fun q => ops.max ops.zero q))

/-- `torch.nn.functional.dropout(x, p, training)`: identity when `training`
is false, otherwise keep-and-rescale or zero each element. -/
def fDropout {α : Type} (ops : ScalarOps α) (p : α) (training : Bool) (mask : ℕ → ℕ → Bool)
    (x : List (List α)) : List (List α) :=
  if training then
    x.enum.map (fun ri => ri.2.enum.map (fun ci =>
      if mask ri.1 ci.1 then ops.div ci.2 (ops.sub ops.one p) else ops.zero))
  else x

/-- The loop of `Prenet.forward` (lines 185-187): for each layer in order,
apply the layer then `F.dropout(..., self.dropout_rate)` — whose `training`
argument is the call's default `True`, independent of the module mode. -/
def runPrenet {α : Type} (ops : ScalarOps α) (p : α) (noise : Mask3) :
    ℕ → List (PrenetLayer α) → List (List α) → List (List α)
  | _, [], x => x
  | l, ly :: rest, x =>
    runPrenet ops p noise (l + 1) rest (fDropout ops p true (noise l) (linearReLU ops ly x))

/-- `Prenet.forward` (lines 175-187).  The module's train/eval mode is not
consulted anywhere in the body. -/
def Prenet.forward {α : Type} (ops : ScalarOps α) (pn : Prenet α) (noise : Mask3)
    (x : List (List α)) : List (List α) :=
  runPrenet ops pn.dropoutRate noise 0 pn.prenet x

/-- Decidable equality for `Except` results, used to evaluate the model at
concrete inputs. -/
instance {ε β : Type} [DecidableEq ε] [DecidableEq β] : DecidableEq (Except ε β) := fun a b =>
  match a, b with
  | Except.error x, Except.error y =>
    if h : x = y then Decidable.isTrue (congrArg Except.error h)
    else Decidable.isFalse (fun hh => h (Except.error.inj hh))
  | Except.error _, Except.ok _ => Decidable.isFalse (fun hh => Except.noConfusion hh)
  | Except.ok _, Except.error _ => Decidable.isFalse (fun hh => Except.noConfusion hh)
  | Except.ok x, Except.ok y =>
    if h : x = y then Decidable.isTrue (congrArg Except.ok h)
    else Decidable.isFalse (fun hh => h (Except.ok.inj hh))

/-- Integer interpretation of the scalar primitives, used to evaluate the
model at concrete inputs. -/
def intOps : ScalarOps ℤ :=
  { zero := 0
    one := 1
    add := fun a b => a + b
    sub := fun a b => a - b
    mul := fun a b => a * b
    div := fun a b => a / b
    max := fun a b => max a b
    sigmoid := fun _ => 0
    tanh := fun _ => 0
    sqrt := fun q => q
    ofNat := fun n => (n : ℤ) }

/-- Rational interpretation of the scalar primitives. -/
def ratOps : ScalarOps ℚ :=
  { zero := 0
    one := 1
    add := fun a b => a + b
    sub := fun a b => a - b
    mul := fun a b => a * b
    div := fun a b => a / b
    max := fun a b => max a b
    sigmoid := fun _ => 0
    tanh := fun _ => 0
    sqrt := fun q => q
    ofNat := fun n => (n : ℚ) }

/-- All-zero initialization source over the integers. -/
def srcZeroInt : EncoderInit ℤ :=
  { embedW := fun _ _ => 0
    convW := fun _ _ _ _ => 0
    convXavier := fun _ _ _ _ => 0
    lstm :=
      { wIh := fun _ _ _ _ => 0
        wHh := fun _ _ _ _ => 0
        bIh := fun _ _ _ => 0
        bHh := fun _ _ _ => 0 } }

/-- Dropout draws that drop every element. -/
def maskNone4 : Mask4 := fun _ _ _ _ => false

/-- Dropout draws that drop every element (prenet shape). -/
def maskNone3 : Mask3 := fun _ _ _ => false

/-- Dropout draws that keep every element (prenet shape). -/
def maskAll3 : Mask3 := fun _ _ _ => true

/-- Concrete encoder with neither convolutions nor a recurrent stage
(`idim=2, embed_dim=1, elayers=0, econv_layers=0`). -/
def encNoRnn : Encoder ℤ := mkEncoder intOps 2 1 0 2 0 1 1 false false 0 0 srcZeroInt

/-- Concrete encoder with a recurrent stage (`elayers=1, eunits=2`) and no
convolutions. -/
def encRnn : Encoder ℤ := mkEncoder intOps 2 1 1 2 0 1 1 false false 0 0 srcZeroInt

/-- Concrete encoder with a recurrent stage and an odd `eunits = 3`. -/
def encOddUnits : Encoder ℤ := mkEncoder intOps 2 1 1 3 0 1 1 false false 0 0 srcZeroInt

/-- Concrete encoder with one convolutional block of even kernel width
`econv_filts = 4` and no recurrent stage. -/
def encEvenKernel : Encoder ℤ := mkEncoder intOps 2 1 0 2 1 1 4 false false 0 0 srcZeroInt

/-- Concrete prenet with `n_layers = 0` and `n_units = 2`. -/
def pnNoLayers : Prenet ℤ := mkPrenet 1 0 2 0 (fun _ _ _ => 0) (fun _ _ => 0)

/-- Concrete prenet with one layer of one unit, zero weights. -/
def pnOneInt : Prenet ℤ := mkPrenet 1 1 1 0 (fun _ _ _ => 0) (fun _ _ => 0)

/-- Concrete rational prenet with one layer, unit weights and dropout rate
one half. -/
def pnOneRat : Prenet ℚ := mkPrenet 1 1 1 (1 / 2) (fun _ _ _ => 1) (fun _ _ => 1)

/-! ## Theorems -/

theorem runConvs_residual_foldl {α : Type} (ops : ScalarOps α) (tr : Bool) (noise : Mask4)
    (bs : List (ConvBlock α)) (l : ℕ) (s : List (List (List α))) :
    runConvs ops tr true noise l bs s =
      (bs.enumFrom l).foldl (fun s p => tAdd ops s (applyBlock ops tr (noise p.1) p.2 s)) s := by
  induction bs generalizing l s with
  | nil => rfl
  | cons b rest ih => simp [runConvs, List.enumFrom, ih]

/-- C2: with `use_residual` enabled the convolution loop of `Encoder.forward`
accumulates into a running state — block `l` adds its output to its own
input, `state = state + block(state)`, starting from the transposed
embedding output — and (second conjunct) on an encoder with such a
convolution stack and no recurrent stage, `forward` returns exactly this
accumulation, for every input batch. -/
theorem c2_residual_accumulation {α : Type} (ops : ScalarOps α) :
    (∀ (tr : Bool) (noise : Mask4) (bs : List (ConvBlock α)) (s0 : List (List (List α))),
        runConvs ops tr true noise 0 bs s0 =
          bs.enum.foldl (fun s p => tAdd ops s (applyBlock ops tr (noise p.1) p.2 s)) s0) ∧
      ∀ (idim : ℕ) (tr : Bool) (ew : List (List α)) (bs : List (ConvBlock α)) (noise : Mask4)
        (xs : List (List ℕ)),
        Encoder.forward ops
            { idim := idim, useResidual := true, training := tr, embedWeight := ew,
              convs := some bs, blstm := none }
            noise xs none =
          Except.ok (EncoderOut.noRnn
            ((bs.enum.foldl (fun s p => tAdd ops s (applyBlock ops tr (noise p.1) p.2 s))
                ((embedBatch
                    { idim := idim, useResidual := true, training := tr, embedWeight := ew,
                      convs := some bs, blstm := none }
                    xs).map (transposeM ops))).map (transposeM ops))) := by
  constructor
  · intro tr noise bs s0
    exact runConvs_residual_foldl ops tr noise bs 0 s0
  · intro idim tr ew bs noise xs
    show Except.ok (EncoderOut.noRnn _) = _
    rw [encPre]
    simp only []
    rw [runConvs_residual_foldl]
    rfl

/-- C1 (amended): whenever the encoder has a recurrent stage — i.e. whenever
`forward` on the one-item batch `[x]` with length vector `[len x]` returns a
hidden-state tensor together with a length vector — `inference x` returns
exactly that hidden-state tensor with the batch dimension dropped and the
length output discarded. -/
theorem c1_inference_refines_forward {α : Type} (ops : ScalarOps α) (e : Encoder α)
    (noise : Mask4) (x : List ℕ) (ys : List (List (List α))) (hl : List ℕ)
    (hfwd : Encoder.forward ops e noise [x] (some [x.length]) =
      Except.ok (EncoderOut.rnn ys hl)) :
    Encoder.inference ops e noise x = Except.ok (InferenceOut.mat (ys.getD 0 [])) := by
  unfold Encoder.inference
  rw [hfwd]

/-- Witness for C1: a concrete encoder with a recurrent stage on which the amended refinement evaluates. -/
theorem c1_witness :
    Encoder.inference intOps encRnn maskNone4 [1] = Except.ok (InferenceOut.mat [[0, 0]]) :=
  c1_inference_refines_forward intOps encRnn maskNone4 [1] [[[0, 0]]] [1] (by decide)

/-- C1 counterexample: on an encoder with no recurrent stage (`elayers = 0`),
`forward` on the batch `[x]` produces the hidden-state batch
`[[[0], [0]]]` (so the claim asks `inference` to return `[[0], [0]]`), but
`inference` instead returns the single first-timestep vector `[0]`, because
`forward(...)[0][0]` indexes batch then time when `forward` returns a plain
tensor. -/
theorem c1_counterexample :
    Encoder.forward intOps encNoRnn maskNone4 [[1, 0]] (some [2]) =
        Except.ok (EncoderOut.noRnn [[[0], [0]]]) ∧
      Encoder.inference intOps encNoRnn maskNone4 [1, 0] ≠
        Except.ok (InferenceOut.mat [[0], [0]]) := by
  exact ⟨by decide, by decide⟩

/-- C10: with a recurrent stage present, `forward` fails (with the
sequence-packing error) on every length vector that respects the documented
invariant (each length bounded by the padded time length) but is not sorted
in non-increasing order. -/
theorem c10_unsorted_lengths_error {α : Type} (ops : ScalarOps α) (e : Encoder α)
    (m : LSTMModel α) (noise : Mask4) (xs : List (List ℕ)) (il : List ℕ)
    (hb : e.blstm = some m)
    (hval : ∀ l ∈ il, l ≤ (xs.headD []).length)
    (hsort : sortedDesc il = false) :
    ∃ msg, Encoder.forward ops e noise xs (some il) = Except.error msg := by
  refine ⟨"lengths array must be sorted in decreasing order", ?_⟩
  unfold Encoder.forward
  rw [hb]
  simp [packPaddedSequence, hsort]

/-- Witness for C10: a concrete unsorted-but-valid length vector makes forward fail. -/
theorem c10_witness :
    ∃ msg, Encoder.forward intOps encRnn maskNone4 [[1, 0], [1, 0]] (some [1, 2]) =
      Except.error msg :=
  c10_unsorted_lengths_error intOps encRnn (mkLSTM 1 1 1 srcZeroInt.lstm) maskNone4
    [[1, 0], [1, 0]] [1, 2] (by decide) (by decide) (by decide)

theorem forward_blstm_some {α : Type} (ops : ScalarOps α) (e : Encoder α) (m : LSTMModel α)
    (noise : Mask4) (xs : List (List ℕ)) (il : List ℕ) (hb : e.blstm = some m) :
    Encoder.forward ops e noise xs (some il) =
      match packPaddedSequence ((encPre ops e noise xs).map (transposeM ops)) il with
      | Except.error msg => Except.error msg
      | Except.ok packed =>
        Except.ok (EncoderOut.rnn
          (padPackedSequence ops (2 * m.hiddenSize)
            (packed.1.map (fun seq => runLSTM ops m seq)) packed.2).1
          (padPackedSequence ops (2 * m.hiddenSize)
            (packed.1.map (fun seq => runLSTM ops m seq)) packed.2).2) := by
  unfold Encoder.forward
  rw [hb]

theorem pack_ok_lengths {α : Type} (xs : List (List (List α))) (il : List ℕ)
    (pr : List (List (List α)) × List ℕ) (h : packPaddedSequence xs il = Except.ok pr) :
    pr.2 = il := by
  unfold packPaddedSequence at h
  split at h
  · exact Except.noConfusion h
  · split at h
    · exact Except.noConfusion h
    · split at h
      · exact Except.noConfusion h
      · split at h
        · exact Except.noConfusion h
        · cases h; rfl

/-- C7: when every entry of the length vector equals the padded sequence
length (no padding present) and `Encoder.forward` returns a hidden-state
tensor with a length vector, that output length vector equals the input
length vector exactly. -/
theorem c7_no_padding_lengths {α : Type} (ops : ScalarOps α) (e : Encoder α) (noise : Mask4)
    (xs : List (List ℕ)) (il : List ℕ) (T : ℕ) (ys : List (List (List α))) (hl : List ℕ)
    (hT : ∀ s ∈ xs, s.length = T) (hil : ∀ l ∈ il, l = T)
    (hfwd : Encoder.forward ops e noise xs (some il) = Except.ok (EncoderOut.rnn ys hl)) :
    hl = il := by
  cases hbl : e.blstm with
  | none =>
    unfold Encoder.forward at hfwd
    rw [hbl] at hfwd
    simp at hfwd
  | some m =>
    rw [forward_blstm_some ops e m noise xs il hbl] at hfwd
    cases hpk : packPaddedSequence ((encPre ops e noise xs).map (transposeM ops)) il with
    | error msg => rw [hpk] at hfwd; simp at hfwd
    | ok pr =>
      rw [hpk] at hfwd
      simp only [padPackedSequence, Except.ok.injEq, EncoderOut.rnn.injEq] at hfwd
      exact hfwd.2.symm.trans (pack_ok_lengths _ il pr hpk)

/-- Witness for C7: a concrete no-padding batch on which the length vector round-trips. -/
theorem c7_witness : ([1] : List ℕ) = [1] :=
  c7_no_padding_lengths intOps encRnn maskNone4 [[1]] [1] 1 [[[0, 0]]] [1]
    (by decide) (by decide) (by decide)

/-- C9: after the full construction of the encoder, including the recursive
`encoder_init` pass (which rewrites only convolution weights), the embedding
row at the padding sentinel id is still the all-zero vector. -/
theorem c9_padding_row_zero {α : Type} (ops : ScalarOps α)
    (idim embedDim elayers eunits econvLayers econvChans econvFilts : ℕ)
    (bn res : Bool) (p : α) (pad : ℕ) (src : EncoderInit α)
    (hpad : pad < idim) :
    (mkEncoder ops idim embedDim elayers eunits econvLayers econvChans econvFilts bn res p pad
        src).embedWeight.getD pad [] = List.replicate embedDim ops.zero := by
  show ((List.range idim).map (fun i =>
      if i = pad then List.replicate embedDim ops.zero
      else (List.range embedDim).map (fun j => src.embedW i j))).getD pad [] =
    List.replicate embedDim ops.zero
  rw [List.getD_eq_getElem _ _ (by simpa using hpad)]
  simp

/-- Witness for C9: a concrete constructed encoder whose padding embedding row is zero. -/
theorem c9_witness :
    (mkEncoder intOps 2 1 1 2 3 1 5 true false 0 0 srcZeroInt).embedWeight.getD 0 [] =
      List.replicate 1 (intOps.zero) :=
  c9_padding_row_zero intOps 2 1 1 2 3 1 5 true false 0 0 srcZeroInt (by decide)

theorem snd_mem_of_mem_enum {β : Type} {l : List β} {q : ℕ × β} (h : q ∈ l.enum) : q.2 ∈ l := by
  have h2 : q.2 ∈ l.enum.map Prod.snd := List.mem_map_of_mem Prod.snd h
  simpa [List.enum_map_snd] using h2

theorem fDropout_row_length {α : Type} (ops : ScalarOps α) (p : α) (mask : ℕ → ℕ → Bool)
    (y : List (List α)) (row : List α) (hr : row ∈ fDropout ops p true mask y) :
    ∃ r0 ∈ y, row.length = r0.length := by
  simp only [fDropout, if_pos, List.mem_map] at hr
  obtain ⟨q, hq, rfl⟩ := hr
  exact ⟨q.2, snd_mem_of_mem_enum hq, by simp⟩

theorem linearReLU_row_length {α : Type} (ops : ScalarOps α) (ly : PrenetLayer α)
    (x : List (List α)) (row : List α) (hr : row ∈ linearReLU ops ly x) :
    row.length = min ly.weight.length ly.bias.length := by
  simp only [linearReLU, List.mem_map] at hr
  obtain ⟨r0, _, rfl⟩ := hr
  simp [vAdd, matVec]

theorem runPrenet_length {α : Type} (ops : ScalarOps α) (p : α) (noise : Mask3)
    (L : List (PrenetLayer α)) (l : ℕ) (x : List (List α)) :
    (runPrenet ops p noise l L x).length = x.length := by
  induction L generalizing l x with
  | nil => rfl
  | cons ly rest ih =>
    rw [runPrenet, ih]
    simp [fDropout, linearReLU]

theorem runPrenet_row_length {α : Type} (ops : ScalarOps α) (p : α) (noise : Mask3) (u : ℕ)
    (L : List (PrenetLayer α)) (l : ℕ) (x : List (List α))
    (hL : L ≠ [])
    (hw : ∀ ly ∈ L, ly.weight.length = u ∧ ly.bias.length = u) :
    ∀ row ∈ runPrenet ops p noise l L x, row.length = u := by
  induction L generalizing l x with
  | nil => exact absurd rfl hL
  | cons ly rest ih =>
    rw [runPrenet]
    cases rest with
    | nil =>
      intro row hr
      rw [runPrenet] at hr
      obtain ⟨r0, hr0, hlen⟩ := fDropout_row_length ops p (noise l) _ row hr
      have h0 := linearReLU_row_length ops ly x r0 hr0
      have hly := hw ly (List.mem_cons_self ly [])
      rw [hlen, h0, hly.1, hly.2, Nat.min_self]
    | cons ly2 rest2 =>
      exact ih (l + 1) _ (by simp) (fun a ha => hw a (List.mem_cons_of_mem _ ha))

/-- C4 (amended): for every Prenet configuration with at least one layer,
`forward` preserves the leading dimension of the input and every output row
has the final layer width `n_units`. -/
theorem c4_output_shape {α : Type} (ops : ScalarOps α) (idim nLayers nUnits : ℕ) (p : α)
    (w : ℕ → ℕ → ℕ → α) (b : ℕ → ℕ → α) (noise : Mask3) (x : List (List α))
    (hL : 1 ≤ nLayers) :
    (Prenet.forward ops (mkPrenet idim nLayers nUnits p w b) noise x).length = x.length ∧
      ∀ row ∈ Prenet.forward ops (mkPrenet idim nLayers nUnits p w b) noise x,
        row.length = nUnits := by
  constructor
  · exact runPrenet_length ops p noise _ 0 x
  · apply runPrenet_row_length
    · have hlen : (mkPrenet idim nLayers nUnits p w b).prenet.length = nLayers := by
        simp [mkPrenet]
      intro hnil
      rw [hnil] at hlen
      simp at hlen
      omega
    · intro ly hly
      simp only [mkPrenet, List.mem_map] at hly
      obtain ⟨l, _, rfl⟩ := hly
      constructor <;> simp

/-- Witness for C4: a concrete one-layer prenet evaluated on a concrete input. -/
theorem c4_witness :
    (Prenet.forward intOps pnOneInt maskNone3 [[7]]).length = 1 ∧
      ([0] : List ℤ).length = 1 := by
  have h := c4_output_shape intOps 1 1 1 0 (fun _ _ _ => 0) (fun _ _ => 0) maskNone3 [[7]]
    (by decide)
  exact ⟨h.1, h.2 [0] (by decide)⟩

/-- C4 counterexample: with `n_layers = 0` (allowed by the claim) the prenet
stack is empty, `forward` returns its input unchanged, and the last
dimension stays at `idim = 1` instead of the configured `n_units = 2`. -/
theorem c4_counterexample :
    Prenet.forward intOps pnNoLayers maskNone3 [[5]] = [[5]] ∧
      ((Prenet.forward intOps pnNoLayers maskNone3 [[5]]).getD 0 []).length ≠ 2 := by
  exact ⟨by decide, by decide⟩

/-- C5: `Prenet.forward` applies dropout unconditionally.  First conjunct:
the output is completely independent of the module's train/eval mode flag
(the body never consults it, since `F.dropout` is called with its default
`training=True`).  Second conjunct: for a concrete prenet with the
non-degenerate dropout rate `1/2`, two invocations on the same input under
different random draws produce different outputs. -/
theorem c5_dropout_unconditional :
    (∀ (α : Type) (ops : ScalarOps α) (pn : Prenet α) (b1 b2 : Bool) (noise : Mask3)
        (x : List (List α)),
        Prenet.forward ops { pn with training := b1 } noise x =
          Prenet.forward ops { pn with training := b2 } noise x) ∧
      ((0 : ℚ) < pnOneRat.dropoutRate ∧ pnOneRat.dropoutRate < 1) ∧
      Prenet.forward ratOps pnOneRat maskAll3 [[1]] ≠
        Prenet.forward ratOps pnOneRat maskNone3 [[1]] := by
  refine ⟨fun α ops pn b1 b2 noise x => rfl, ⟨?_, ?_⟩, ?_⟩
  · show (0 : ℚ) < 1 / 2
    norm_num
  · show (1 / 2 : ℚ) < 1
    norm_num
  · have h1 : Prenet.forward ratOps pnOneRat maskAll3 [[1]] = [[4]] := by
      show runPrenet ratOps (1 / 2 : ℚ) maskAll3 0 (mkPrenet 1 1 1 (1 / 2 : ℚ)
        (fun _ _ _ => 1) (fun _ _ => 1)).prenet [[1]] = [[4]]
      simp only [mkPrenet, List.range_succ, List.range_zero, List.nil_append, List.map_cons,
        List.map_nil, runPrenet]
      simp only [linearReLU, matVec, dotV, vAdd, List.map_cons, List.map_nil,
        List.zipWith_cons_cons, List.zipWith_nil_right, List.foldr_cons, List.foldr_nil, ratOps]
      norm_num [fDropout, maskAll3, List.enum, List.enumFrom, runPrenet]
    have h2 : Prenet.forward ratOps pnOneRat maskNone3 [[1]] = [[0]] := by
      show runPrenet ratOps (1 / 2 : ℚ) maskNone3 0 (mkPrenet 1 1 1 (1 / 2 : ℚ)
        (fun _ _ _ => 1) (fun _ _ => 1)).prenet [[1]] = [[0]]
      simp only [mkPrenet, List.range_succ, List.range_zero, List.nil_append, List.map_cons,
        List.map_nil, runPrenet]
      norm_num [fDropout, maskNone3, List.enum, List.enumFrom, runPrenet, vAdd, matVec, dotV,
        ratOps, List.replicate]
    rw [h1, h2]
    simp

theorem conv1d_row_length {α : Type} (ops : ScalarOps α) (w : List (List (List α)))
    (k pad : ℕ) (x : List (List α)) (row : List α) (hr : row ∈ conv1d ops w k pad x) :
    row.length = (x.headD []).length + 2 * pad + 1 - k := by
  simp only [conv1d, List.mem_map] at hr
  obtain ⟨wOut, _, rfl⟩ := hr
  simp

theorem batchNorm1d_row_length {α : Type} (ops : ScalarOps α) (g bt : List α) (e : α)
    (c : List (List (List α))) (it : List (List α)) (row : List α)
    (hit : it ∈ batchNorm1d ops g bt e c) (hr : row ∈ it) :
    ∃ it0 ∈ c, ∃ r0 ∈ it0, row.length = r0.length := by
  simp only [batchNorm1d, List.mem_map] at hit
  obtain ⟨it0, hit0, rfl⟩ := hit
  simp only [List.mem_map] at hr
  obtain ⟨q, hq, rfl⟩ := hr
  exact ⟨it0, hit0, q.2, snd_mem_of_mem_enum hq, by simp⟩

theorem reluT_row_length {α : Type} (ops : ScalarOps α) (c : List (List (List α)))
    (it : List (List α)) (row : List α) (hit : it ∈ reluT ops c) (hr : row ∈ it) :
    ∃ it0 ∈ c, ∃ r0 ∈ it0, row.length = r0.length := by
  simp only [reluT, List.mem_map] at hit
  obtain ⟨it0, hit0, rfl⟩ := hit
  simp only [List.mem_map] at hr
  obtain ⟨r0, hr0, rfl⟩ := hr
  exact ⟨it0, hit0, r0, hr0, by simp⟩

theorem dropout3_row_length {α : Type} (ops : ScalarOps α) (tr : Bool) (p : α)
    (mask : ℕ → ℕ → ℕ → Bool) (c : List (List (List α))) (it : List (List α)) (row : List α)
    (hit : it ∈ dropout3 ops tr p mask c) (hr : row ∈ it) :
    ∃ it0 ∈ c, ∃ r0 ∈ it0, row.length = r0.length := by
  cases tr with
  | false => exact ⟨it, by simpa [dropout3] using hit, row, hr, rfl⟩
  | true =>
    simp only [dropout3, if_pos, List.mem_map] at hit
    obtain ⟨bi, hbi, rfl⟩ := hit
    simp only [List.mem_map] at hr
    obtain ⟨ci, hci, rfl⟩ := hr
    exact ⟨bi.2, snd_mem_of_mem_enum hbi, ci.2, snd_mem_of_mem_enum hci, by simp⟩

/-- C6 (amended): every convolutional block built by the encoder constructor
uses stride 1 and padding `(econv_filts - 1) / 2`, which preserves the time
length exactly when the kernel width is odd: for every odd `filts` and every
batch whose items have time length `T`, every row of the block output has
length `T`. -/
theorem c6_same_length_odd_kernel {α : Type} (ops : ScalarOps α) (tr : Bool)
    (mask : ℕ → ℕ → ℕ → Bool) (ichans ochans filts : ℕ) (bn : Bool) (p : α)
    (w : ℕ → ℕ → ℕ → α) (xs : List (List (List α))) (T : ℕ)
    (hodd : filts % 2 = 1)
    (hx : ∀ it ∈ xs, (it.headD []).length = T) :
    ∀ it2 ∈ applyBlock ops tr mask (mkConvBlock ops ichans ochans filts bn p w) xs,
      ∀ row ∈ it2, row.length = T := by
  intro it2 hit2 row hrow
  unfold applyBlock at hit2
  simp only [mkConvBlock] at hit2
  obtain ⟨it1, hit1, r1, hr1, e1⟩ := dropout3_row_length ops tr p mask _ it2 row hit2 hrow
  obtain ⟨it0, hit0, r0, hr0, e0⟩ := reluT_row_length ops _ it1 r1 hit1 hr1
  have hconv : ∃ itc ∈ xs.map (fun it => conv1d ops
      ((List.range ochans).map (fun o =>
        (List.range ichans).map (fun i => (List.range filts).map (fun j => w o i j))))
      filts ((filts - 1) / 2) it), ∃ rc ∈ itc, r0.length = rc.length := by
    by_cases hbn : bn
    · rw [if_pos hbn] at hit0
      exact batchNorm1d_row_length ops _ _ _ _ it0 r0 hit0 hr0
    · rw [if_neg hbn] at hit0
      exact ⟨it0, hit0, r0, hr0, rfl⟩
  obtain ⟨itc, hitc, rc, hrc, ec⟩ := hconv
  simp only [List.mem_map] at hitc
  obtain ⟨x0, hx0, rfl⟩ := hitc
  have hc := conv1d_row_length ops _ filts ((filts - 1) / 2) x0 rc hrc
  rw [hx x0 hx0] at hc
  rw [e1, e0, ec, hc]
  omega

/-- Witness for C6: a concrete odd-kernel block evaluated on a concrete input. -/
theorem c6_witness : ([0] : List ℤ).length = 1 :=
  c6_same_length_odd_kernel intOps true (maskNone4 0) 1 1 1 false 0 (fun _ _ _ => 0)
    [[[0]]] 1 (by decide) (by decide) [[0]] (by decide) [0] (by decide)

/-- C6 counterexample: the encoder constructor accepts the even kernel width
`econv_filts = 4` (its block has padding `(4 - 1) / 2 = 1`), and on an input
of time length 2 the block output has time length 1, not 2: the sequence
length is not preserved for even kernel widths. -/
theorem c6_counterexample :
    encEvenKernel.convs = some [mkConvBlock intOps 1 1 4 false 0 (fun _ _ _ => 0)] ∧
      applyBlock intOps true (maskNone4 0) (mkConvBlock intOps 1 1 4 false 0 (fun _ _ _ => 0))
          [[[0, 0]]] = [[[0]]] ∧
      ((([[[0, 0]]] : List (List (List ℤ))).getD 0 []).getD 0 []).length = 2 ∧
      ((([[[0]]] : List (List (List ℤ))).getD 0 []).getD 0 []).length ≠ 2 := by
  exact ⟨by decide, by decide, by decide, by decide⟩

/-- The `torch.nn.LSTM` weight shapes of one direction for hidden size `h`. -/
def DirShapes {α : Type} (h : ℕ) (d : LSTMDir α) : Prop :=
  d.wIh.length = 4 * h ∧ d.wHh.length = 4 * h ∧ d.bIh.length = 4 * h ∧ d.bHh.length = 4 * h

theorem mkLSTMDir_shapes {α : Type} (ins h l : ℕ) (rev : Bool) (src : LSTMInit α) :
    DirShapes h (mkLSTMDir ins h l rev src) := by
  simp [DirShapes, mkLSTMDir]

theorem lstmCell_lengths {α : Type} (ops : ScalarOps α) (h : ℕ) (d : LSTMDir α)
    (x hPrev cPrev : List α) (hd : DirShapes h d) (hc : cPrev.length = h) :
    (lstmCell ops h d x hPrev cPrev).1.length = h ∧
      (lstmCell ops h d x hPrev cPrev).2.length = h := by
  obtain ⟨h1, h2, h3, h4⟩ := hd
  constructor <;>
    simp [lstmCell, vAdd, matVec, List.length_zipWith, h1, h2, h3, h4, hc] <;> omega

theorem runDir_row_length {α : Type} (ops : ScalarOps α) (h : ℕ) (d : LSTMDir α)
    (hd : DirShapes h d) (seq : List (List α)) (hPrev cPrev : List α) (hc : cPrev.length = h) :
    ∀ r ∈ runDir ops h d seq hPrev cPrev, r.length = h := by
  induction seq generalizing hPrev cPrev with
  | nil => intro r hr; simp [runDir] at hr
  | cons xh rest ih =>
    intro r hr
    rw [runDir] at hr
    rcases List.mem_cons.mp hr with h1 | h2
    · rw [h1]; exact (lstmCell_lengths ops h d xh hPrev cPrev hd hc).1
    · exact ih _ _ (lstmCell_lengths ops h d xh hPrev cPrev hd hc).2 r h2

theorem exists_of_mem_zipWith {β γ δ : Type} (f : β → γ → δ) :
    ∀ (as : List β) (bs : List γ) (r : δ), r ∈ List.zipWith f as bs →
      ∃ a ∈ as, ∃ b ∈ bs, r = f a b
  | [], _, r, hr => by simp at hr
  | _ :: _, [], r, hr => by simp at hr
  | a :: as, b :: bs, r, hr => by
    rcases List.mem_cons.mp hr with h1 | h2
    · exact ⟨a, List.mem_cons_self a as, b, List.mem_cons_self b bs, h1⟩
    · obtain ⟨a2, ha2, b2, hb2, rfl⟩ := exists_of_mem_zipWith f as bs r h2
      exact ⟨a2, List.mem_cons_of_mem _ ha2, b2, List.mem_cons_of_mem _ hb2, rfl⟩

theorem runLayer_row_length {α : Type} (ops : ScalarOps α) (h : ℕ) (ly : LSTMLayer α)
    (seq : List (List α)) (hf : DirShapes h ly.fwd) (hb : DirShapes h ly.bwd) :
    ∀ r ∈ runLayer ops h ly seq, r.length = 2 * h := by
  intro r hr
  unfold runLayer at hr
  obtain ⟨u, hu, v, hv, rfl⟩ := exists_of_mem_zipWith _ _ _ r hr
  have h1 := runDir_row_length ops h ly.fwd hf seq _ _ (List.length_replicate h ops.zero) u hu
  have h2 := runDir_row_length ops h ly.bwd hb seq.reverse _ _
    (List.length_replicate h ops.zero) v (List.mem_reverse.mp hv)
  simp [h1, h2]
  omega

theorem foldl_layers_row_length {α : Type} (ops : ScalarOps α) (h : ℕ) :
    ∀ (L : List (LSTMLayer α)) (seq : List (List α)), L ≠ [] →
      (∀ ly ∈ L, DirShapes h ly.fwd ∧ DirShapes h ly.bwd) →
      ∀ r ∈ L.foldl (fun s ly => runLayer ops h ly s) seq, r.length = 2 * h
  | [], _, hne, _ => absurd rfl hne
  | [ly], seq, _, hsh => by
    intro r hr
    simp only [List.foldl] at hr
    exact runLayer_row_length ops h ly seq (hsh ly (List.mem_cons_self _ _)).1
      (hsh ly (List.mem_cons_self _ _)).2 r hr
  | ly1 :: ly2 :: rest, seq, _, hsh => by
    intro r hr
    exact foldl_layers_row_length ops h (ly2 :: rest) (runLayer ops h ly1 seq) (by simp)
      (fun a ha => hsh a (List.mem_cons_of_mem _ ha)) r (by simpa [List.foldl] using hr)

theorem mkLSTM_layer_shapes {α : Type} (ins h n : ℕ) (src : LSTMInit α) :
    ∀ ly ∈ (mkLSTM ins h n src).layers, DirShapes h ly.fwd ∧ DirShapes h ly.bwd := by
  intro ly hly
  simp only [mkLSTM, List.mem_map] at hly
  obtain ⟨l, _, rfl⟩ := hly
  exact ⟨mkLSTMDir_shapes _ h l false src, mkLSTMDir_shapes _ h l true src⟩

theorem padToLen_row_length {α : Type} (ops : ScalarOps α) (t wdt : ℕ) (seq : List (List α))
    (hseq : ∀ r ∈ seq, r.length = wdt) :
    ∀ r ∈ padToLen ops t wdt seq, r.length = wdt := by
  intro r hr
  rcases List.mem_append.mp hr with h1 | h2
  · exact hseq r h1
  · rw [List.eq_of_mem_replicate h2]; simp

/-- C3 (amended): constructing an encoder with a recurrent stage never fails,
for odd `eunits` included; the recurrent hidden width is silently truncated
to `eunits / 2` per direction, so every hidden-state row that `forward`
returns has width `2 * (eunits / 2)` — which equals the configured `eunits`
exactly when `eunits` is even. -/
theorem c3_output_width {α : Type} (ops : ScalarOps α)
    (idim embedDim elayers eunits econvLayers econvChans econvFilts : ℕ)
    (bn res : Bool) (p : α) (pad : ℕ) (src : EncoderInit α) (noise : Mask4)
    (xs : List (List ℕ)) (il : List ℕ) (ys : List (List (List α))) (hl : List ℕ)
    (hfwd : Encoder.forward ops
        (mkEncoder ops idim embedDim elayers eunits econvLayers econvChans econvFilts bn res p
          pad src) noise xs (some il) = Except.ok (EncoderOut.rnn ys hl)) :
    (∀ it ∈ ys, ∀ row ∈ it, row.length = 2 * (eunits / 2)) ∧
      (eunits % 2 = 0 → 2 * (eunits / 2) = eunits) := by
  refine ⟨?_, fun he => by omega⟩
  by_cases hel : 0 < elayers
  · have hbl : (mkEncoder ops idim embedDim elayers eunits econvLayers econvChans econvFilts
        bn res p pad src).blstm =
        some (mkLSTM (if econvLayers ≠ 0 then econvChans else embedDim) (eunits / 2) elayers
          src.lstm) := by
      simp [mkEncoder, mkRawEncoder, applyEncoderInit, hel]
    rw [forward_blstm_some ops _ _ noise xs il hbl] at hfwd
    cases hpk : packPaddedSequence ((encPre ops
        (mkEncoder ops idim embedDim elayers eunits econvLayers econvChans econvFilts bn res p
          pad src) noise xs).map (transposeM ops)) il with
    | error msg => rw [hpk] at hfwd; simp at hfwd
    | ok pr =>
      rw [hpk] at hfwd
      simp only [padPackedSequence, Except.ok.injEq, EncoderOut.rnn.injEq] at hfwd
      intro it hit row hrow
      rw [← hfwd.1] at hit
      simp only [List.map_map, List.mem_map] at hit
      obtain ⟨seq, _, rfl⟩ := hit
      refine padToLen_row_length ops _ _ _ ?_ row hrow
      refine foldl_layers_row_length ops (eunits / 2) _ _ ?_
        (mkLSTM_layer_shapes _ (eunits / 2) elayers src.lstm)
      have hlen : (mkLSTM (if econvLayers ≠ 0 then econvChans else embedDim) (eunits / 2)
          elayers src.lstm).layers.length = elayers := by
        simp [mkLSTM]
      exact List.ne_nil_of_length_pos (by rw [hlen]; exact hel)
  · have hbl : (mkEncoder ops idim embedDim elayers eunits econvLayers econvChans econvFilts
        bn res p pad src).blstm = none := by
      simp [mkEncoder, mkRawEncoder, applyEncoderInit, hel]
    unfold Encoder.forward at hfwd
    rw [hbl] at hfwd
    simp at hfwd

/-- Witness for C3: a concrete even-units encoder whose output rows have the configured width. -/
theorem c3_witness : ([0, 0] : List ℤ).length = 2 * (2 / 2) := by
  have h := c3_output_width intOps 2 1 1 2 0 1 1 false false 0 0 srcZeroInt maskNone4 [[1]] [1]
    [[[0, 0]]] [1] (by decide)
  exact h.1 [[0, 0]] (by decide) [0, 0] (by decide)

/-- C3 counterexample: an encoder constructed with the odd `eunits = 3` is
not rejected — construction succeeds with a recurrent stage (`blstm` is
present) and `forward` runs — and the concatenated bidirectional output
width is `2 = 2 * (3 / 2)`, not the configured `eunits = 3`. -/
theorem c3_counterexample :
    encOddUnits.blstm.isSome = true ∧
      Encoder.forward intOps encOddUnits maskNone4 [[1]] (some [1]) =
        Except.ok (EncoderOut.rnn [[[0, 0]]] [1]) ∧
      ([0, 0] : List ℤ).length = 2 ∧
      (2 : ℕ) ≠ 3 := by
  exact ⟨by decide, by decide, by decide, by decide⟩

theorem length_transposeM {α : Type} (ops : ScalarOps α) (m : List (List α)) :
    (transposeM ops m).length = numCols m := by
  simp [transposeM]

theorem getElem_transposeM {α : Type} (ops : ScalarOps α) (m : List (List α)) (j : ℕ)
    (hj : j < (transposeM ops m).length) :
    (transposeM ops m)[j] = m.map (fun r => r.getD j ops.zero) := by
  simp [transposeM, List.getElem_map, List.getElem_range]

theorem headD_map_range {β : Type} (f : ℕ → β) (n : ℕ) (d : β) (hn : 0 < n) :
    ((List.range n).map f).headD d = f 0 := by
  cases n with
  | zero => omega
  | succ k => rw [List.range_succ_eq_map]; simp

theorem numCols_transposeM {α : Type} (ops : ScalarOps α) (m : List (List α))
    (h : 0 < numCols m) : numCols (transposeM ops m) = m.length := by
  show ((((List.range (numCols m)).map (fun j => m.map (fun r => r.getD j ops.zero)))).headD
    []).length = m.length
  rw [headD_map_range _ _ _ h]
  simp

theorem map_eq_self_of_eq {β : Type} (f : β → β) :
    ∀ (l : List β), (∀ x ∈ l, f x = x) → l.map f = l
  | [], _ => rfl
  | x :: xs, h => by
    rw [List.map_cons, h x (List.mem_cons_self x xs),
      map_eq_self_of_eq f xs (fun y hy => h y (List.mem_cons_of_mem _ hy))]

theorem transposeM_transposeM {α : Type} (ops : ScalarOps α) (m : List (List α)) (c : ℕ)
    (hc : 1 ≤ c) (hrows : ∀ r ∈ m, r.length = c) :
    transposeM ops (transposeM ops m) = m := by
  rcases m with _ | ⟨r0, rest⟩
  · rfl
  · have hcols : numCols (r0 :: rest) = c := hrows r0 (List.mem_cons_self r0 rest)
    have hT1len : (transposeM ops (r0 :: rest)).length = c := by
      rw [length_transposeM, hcols]
    have hT2 : numCols (transposeM ops (r0 :: rest)) = (r0 :: rest).length :=
      numCols_transposeM ops _ (by rw [hcols]; omega)
    apply List.ext_getElem
    · rw [length_transposeM, hT2]
    · intro i hi1 hi2
      rw [getElem_transposeM]
      apply List.ext_getElem
      · rw [List.length_map, hT1len]
        exact (hrows _ (List.getElem_mem hi2)).symm
      · intro j hj1 hj2
        rw [List.getElem_map, getElem_transposeM]
        · rw [List.getD_eq_getElem _ _ (by simpa using hi2), List.getElem_map,
            List.getD_eq_getElem _ _ hj2]

theorem embedRow_length {α : Type} (ops : ScalarOps α)
    (idim embedDim elayers eunits econvLayers econvChans econvFilts : ℕ)
    (bn res : Bool) (p : α) (pad : ℕ) (src : EncoderInit α) (i : ℕ) (hi : i < idim) :
    ((mkEncoder ops idim embedDim elayers eunits econvLayers econvChans econvFilts bn res p pad
        src).embedWeight.getD i []).length = embedDim := by
  show (((List.range idim).map (fun i2 =>
      if i2 = pad then List.replicate embedDim ops.zero
      else (List.range embedDim).map (fun j => src.embedW i2 j))).getD i []).length = embedDim
  rw [List.getD_eq_getElem _ _ (by simpa using hi)]
  rw [List.getElem_map]
  split <;> simp

/-- C8: on an encoder with no convolutional blocks and no recurrent stage,
`forward` is identity-after-embedding: the channel-first transpose and the
transpose back compose to the identity, the returned tensor is exactly the
embedding lookup of the input in time-major layout, and no length vector is
returned (the result is the bare-tensor variant). -/
theorem c8_identity_after_embedding {α : Type} (ops : ScalarOps α)
    (idim embedDim eunits econvChans econvFilts : ℕ) (bn res : Bool) (p : α) (pad : ℕ)
    (src : EncoderInit α) (noise : Mask4) (xs : List (List ℕ))
    (hE : 1 ≤ embedDim)
    (hids : ∀ s ∈ xs, ∀ i ∈ s, i < idim) :
    Encoder.forward ops
        (mkEncoder ops idim embedDim 0 eunits 0 econvChans econvFilts bn res p pad src)
        noise xs none =
      Except.ok (EncoderOut.noRnn
        (embedBatch
          (mkEncoder ops idim embedDim 0 eunits 0 econvChans econvFilts bn res p pad src)
          xs)) := by
  have hconv : (mkEncoder ops idim embedDim 0 eunits 0 econvChans econvFilts bn res p pad
      src).convs = none := by
    simp [mkEncoder, mkRawEncoder, applyEncoderInit]
  have hbl : (mkEncoder ops idim embedDim 0 eunits 0 econvChans econvFilts bn res p pad
      src).blstm = none := by
    simp [mkEncoder, mkRawEncoder, applyEncoderInit]
  unfold Encoder.forward
  rw [hbl]
  simp only []
  suffices h : (encPre ops
      (mkEncoder ops idim embedDim 0 eunits 0 econvChans econvFilts bn res p pad src) noise
      xs).map (transposeM ops) =
      embedBatch (mkEncoder ops idim embedDim 0 eunits 0 econvChans econvFilts bn res p pad src)
        xs by
    rw [h]
  unfold encPre
  rw [hconv]
  simp only [List.map_map]
  apply map_eq_self_of_eq
  intro it hit
  simp only [embedBatch, List.mem_map] at hit
  obtain ⟨s, hs, rfl⟩ := hit
  show transposeM ops (transposeM ops _) = _
  apply transposeM_transposeM ops _ embedDim hE
  intro r hr
  simp only [List.mem_map] at hr
  obtain ⟨i, hi, rfl⟩ := hr
  exact embedRow_length ops idim embedDim 0 eunits 0 econvChans econvFilts bn res p pad src i
    (hids s hs i hi)

/-- Witness for C8: a concrete convolution-free, recurrence-free encoder acts as embedding lookup. -/
theorem c8_witness :
    Encoder.forward intOps encNoRnn maskNone4 [[1, 0]] none =
      Except.ok (EncoderOut.noRnn (embedBatch encNoRnn [[1, 0]])) :=
  c8_identity_after_embedding intOps 2 1 2 1 1 false false 0 0 srcZeroInt maskNone4 [[1, 0]]
    (by decide) (by decide)
